import Mathlib

/-!
Verification of the coderoller repository flattener.

This file gives a shallow embedding of the path-filtering, tree-building and
content-emission engine of `src/coderoller/source_repo_flattener.py` and of the
orchestration in `src/coderoller/flatten_repo.py`, and proves or refutes the
frozen claims about it.

Modelling conventions:
* Python strings are Lean `String`s; Python substring containment (`x in y`)
  is `containsSub`, decided on the underlying character lists.
* The compiled gitignore `pathspec.PathSpec` object is abstracted as an
  arbitrary predicate `spec : String → Bool` standing for `spec.match_file`:
  every claim involving it quantifies over all such predicates.
* The filesystem seen by `os.walk` / `os.listdir` is modelled by `FSDirs`
  (ordered subdirectory forest) together with a `List FSFile` of regular files
  per directory; a file whose bytes fail text decoding has `content = none`.
* Exceptions (UnicodeDecodeError, IsADirectoryError, clone failures) are
  modelled with `Except` / `Option` results.
-/

/-! ## String primitives (modelling Python's str and os.path operations) -/

/-- Python `sub in s`: `sub` occurs as a contiguous substring of `s`. -/
def containsSub (sub s : String) : Bool := decide (sub.data <:+: s.data)

/-- Python `s.startswith(p)`, on character lists (kernel-reducible). -/
def startsWithL (p s : String) : Bool := p.data.isPrefixOf s.data

/-- Whether a string ends with the path separator character. -/
def endsWithSlash (a : String) : Bool := a.data.getLast? == some '/'

/-- Python (posix) `os.path.join(a, b)` for a two-argument call. -/
def pathJoin (a b : String) : String :=
  if startsWithL "/" b then b
  else if a = "" || endsWithSlash a then a ++ b
  else a ++ "/" ++ b

/-- Accumulation of the relative path reported by `os.path.relpath` for a walk
entry: components are joined with the separator, the root being `""`. -/
def relJoin (r n : String) : String := if r = "" then n else r ++ "/" ++ n

/-- Python (posix) `os.path.basename`: everything after the last separator. -/
def pyBasename (s : String) : String :=
  String.mk ((s.data.reverse.takeWhile (fun c => c ≠ '/')).reverse)

/-- The extension rule of Python `os.path.splitext` applied to the characters
of a basename: the extension starts at the last dot, except when every
character before that dot is itself a dot, in which case there is none. -/
def extOfBase (base : List Char) : String :=
  let rev := base.reverse
  let afterDot := rev.takeWhile (fun c => c ≠ '.')
  if afterDot.length = rev.length then ""
  else
    let cut := base.length - (afterDot.length + 1)
    if (base.take cut).any (fun c => c ≠ '.') then String.mk (base.drop cut) else ""

/-- Python `os.path.splitext(p)[1]`. -/
def splitextExt (p : String) : String :=
  extOfBase ((p.data.reverse.takeWhile (fun c => c ≠ '/')).reverse)

/-- Python (posix) `os.path.normpath`. Used by `get_repo_name` on non-URL
inputs (source: flatten_repo.py line 46). -/
def pyNormpath (p : String) : String :=
  if p = "" then "." else
  let initSlashes : Nat :=
    if startsWithL "//" p && !startsWithL "///" p then 2
    else if startsWithL "/" p then 1 else 0
  let comps := (p.splitOn "/").filter (fun c => c ≠ "" && c ≠ ".")
  let newComps := comps.foldl (fun acc c =>
    if c = ".." then
      if (initSlashes = 0 && acc = []) || (acc ≠ [] && acc.getLast? = some "..") then
        acc ++ [c]
      else if acc ≠ [] then acc.dropLast else acc
    else acc ++ [c]) []
  let joined := String.mk (List.replicate initSlashes '/') ++ String.intercalate "/" newComps
  if joined = "" then "." else joined

/-- The characters of the pattern `".git"`. -/
def gitChars : List Char := ['.', 'g', 'i', 't']

/-- Python `s.replace(".git", "")`: remove every non-overlapping occurrence of
`".git"`, scanning left to right. -/
def stripGitAll : List Char → List Char
  | '.' :: 'g' :: 'i' :: 't' :: rest => stripGitAll rest
  | c :: rest => c :: stripGitAll rest
  | [] => []

/-- Whether the input is URL-like (source: flatten_repo.py lines 39-43). -/
def urlLike (input_path : String) : Bool :=
  startsWithL "http://" input_path || startsWithL "https://" input_path ||
    startsWithL "git@" input_path

/-- Source: `get_repo_name` in flatten_repo.py lines 29-47. -/
def get_repo_name (input_path : String) : String :=
  if urlLike input_path then String.mk (stripGitAll (pyBasename input_path).data)
  else pyBasename (pyNormpath input_path)

/-- Modelled from the spec's words, for comparison in claim C6 only: derive the
repository name by stripping a trailing `.git` suffix (and nothing else) from
the basename. -/
def stripTrailingGitSpec (b : String) : String :=
  if gitChars.isSuffixOf b.data then String.mk (b.data.take (b.data.length - 4))
  else b

/-! ## Ignore matcher (source_repo_flattener.py lines 54-82) -/

/-- Source: the `specific_exclusions` list in `should_include_path`. -/
def specific_exclusions : List String :=
  ["build", "dist", "node_modules", "__pycache__", ".flat.md", ".lock",
   "-lock.json", ".hidden"]

/-- Source: `should_include_path` in source_repo_flattener.py lines 54-82.
The compiled gitignore spec is abstracted as the predicate `spec` standing for
`spec.match_file`. -/
def should_include_path (file_path : String) (spec : String → Bool) : Bool :=
  if specific_exclusions.any (fun e => containsSub e file_path) then false
  else !(spec file_path)

/-- C1: the claim's hypothesis, that some built-in excluded substring occurs
in the path. -/
def builtinHit (file_path : String) : Bool :=
  specific_exclusions.any (fun e => containsSub e file_path)

/-! ## Tree builder (source_repo_flattener.py lines 145-235, flatten_repo.py
lines 510-577)

A Python nested-dict tree value: a dict is an ordered association list whose
entries map a key either to `None` (a file leaf) or to a nested dict (a
directory). Insertion order of the Python dict is the list order. -/

/-- Ordered dictionary tree as built by the flattener: `nil` is the empty
dict, `consFile k rest` an entry `k ↦ None` followed by the remaining
entries, `consDir k sub rest` an entry `k ↦ sub` (a nested dict). -/
inductive PyTreeM : Type where
  | nil : PyTreeM
  | consFile : String → PyTreeM → PyTreeM
  | consDir : String → PyTreeM → PyTreeM → PyTreeM
  deriving DecidableEq

/-- Whether a tree dict has no entries. -/
def isNilT : PyTreeM → Bool
  | .nil => true
  | _ => false

/-- Python `key in d` / `d[key]`: look the key up, returning `some none` for a
file entry and `some (some sub)` for a directory entry. -/
def lookupT : PyTreeM → String → Option (Option PyTreeM)
  | .nil, _ => none
  | .consFile k rest, key => if k = key then some none else lookupT rest key
  | .consDir k sub rest, key => if k = key then some (some sub) else lookupT rest key

/-- Build one dict entry from a value (`none` = file, `some` = directory). -/
def entryCons (k : String) : Option PyTreeM → PyTreeM → PyTreeM
  | none, rest => .consFile k rest
  | some sub, rest => .consDir k sub rest

/-- Python dict assignment `d[k] = v`: replace in place when the key is
present, append a new entry otherwise. -/
def setT : PyTreeM → String → Option PyTreeM → PyTreeM
  | .nil, k, v => entryCons k v .nil
  | .consFile k' rest, k, v =>
      if k' = k then entryCons k v rest else .consFile k' (setT rest k v)
  | .consDir k' sub rest, k, v =>
      if k' = k then entryCons k v rest else .consDir k' sub (setT rest k v)

/-- Source: the directory-insertion loop (flatten_repo.py lines 514-521, and
source_repo_flattener.py lines 171-175): walk the parts, creating an empty
dict for each missing key. `none` models the `TypeError` Python raises when a
traversed key holds `None` and the loop tries to continue into it; reaching a
`None` with the final part is the silent no-op of the source. -/
def addDirParts : PyTreeM → List String → Option PyTreeM
  | t, [] => some t
  | t, p :: rest =>
    match lookupT t p with
    | none => (addDirParts .nil rest).map (fun sub => setT t p (some sub))
    | some none => if rest.isEmpty then some t else none
    | some (some sub) => (addDirParts sub rest).map (fun s2 => setT t p (some s2))

/-- Source: the file-insertion loop (flatten_repo.py lines 524-537): create
parent directories for all parts, then assign the filename to `None`.
`none` models the `TypeError` raised when a parent key holds `None`. -/
def addFileParts : PyTreeM → List String → String → Option PyTreeM
  | t, [], fname => some (setT t fname none)
  | t, p :: rest, fname =>
    match lookupT t p with
    | none => (addFileParts .nil rest fname).map (fun sub => setT t p (some sub))
    | some none => none
    | some (some sub) => (addFileParts sub rest fname).map (fun s2 => setT t p (some s2))

/-- Source: one `os.walk` iteration of the structure-only branch
(source_repo_flattener.py lines 170-179): descend/create the relative-path
parts, then assign every kept filename to `None` at that level. -/
def addDirFiles : PyTreeM → List String → List String → Option PyTreeM
  | t, [], files => some (files.foldl (fun acc f => setT acc f none) t)
  | t, p :: rest, files =>
    match lookupT t p with
    | none => (addDirFiles .nil rest files).map (fun sub => setT t p (some sub))
    | some none => if rest.isEmpty && files.isEmpty then some t else none
    | some (some sub) => (addDirFiles sub rest files).map (fun s2 => setT t p (some s2))

mutual

/-- Source: `print_tree` (source_repo_flattener.py lines 182-215 and
flatten_repo.py lines 540-573). The root and non-root branches are kept as
two separate loops, mirroring the duplicated branches of the source. -/
def print_tree (t : PyTreeM) (pre : String) (is_last : Bool) (is_root : Bool) : String :=
  if is_root then printRootLoop t pre else printNonRootLoop t pre
termination_by (sizeOf t, 1)

/-- The `is_root` branch of `print_tree`: iterate the entries, print the
connector line, and recurse into directory values. -/
def printRootLoop : PyTreeM → String → String
  | .nil, _ => ""
  | .consFile k rest, pre =>
      pre ++ (if isNilT rest then "└── " else "├── ") ++ k ++ "\n" ++
        printRootLoop rest pre
  | .consDir k sub rest, pre =>
      pre ++ (if isNilT rest then "└── " else "├── ") ++ k ++ "\n" ++
        print_tree sub (pre ++ (if isNilT rest then "    " else "│   ")) true false ++
        printRootLoop rest pre
termination_by t _ => (sizeOf t, 0)

/-- The non-root branch of `print_tree`, textually identical to the root
branch in the source. -/
def printNonRootLoop : PyTreeM → String → String
  | .nil, _ => ""
  | .consFile k rest, pre =>
      pre ++ (if isNilT rest then "└── " else "├── ") ++ k ++ "\n" ++
        printNonRootLoop rest pre
  | .consDir k sub rest, pre =>
      pre ++ (if isNilT rest then "└── " else "├── ") ++ k ++ "\n" ++
        print_tree sub (pre ++ (if isNilT rest then "    " else "│   ")) true false ++
        printNonRootLoop rest pre
termination_by t _ => (sizeOf t, 0)

end

/-! ## Filesystem model and the `os.walk` traversal -/

/-- A regular file: its name and its decoded text content, where `none` means
the bytes fail text decoding (`open(...).read()` raises UnicodeDecodeError). -/
structure FSFile where
  name : String
  content : Option String
  deriving DecidableEq

/-- An ordered forest of directories: `cons name children files rest` is a
directory entry followed by its siblings. The two lists per directory mirror
the `dirnames` / `filenames` pair that `os.walk` reports, in OS order. -/
inductive FSDirs : Type where
  | nil : FSDirs
  | cons : String → FSDirs → List FSFile → FSDirs → FSDirs
  deriving DecidableEq

/-- Names of the immediate subdirectories, in order. -/
def dirNamesOf : FSDirs → List String
  | .nil => []
  | .cons n _ _ rest => n :: dirNamesOf rest

/-- Well-formedness of an entry name as produced by a real filesystem:
nonempty and without a path separator. -/
def okName (n : String) : Bool := n ≠ "" && !containsSub "/" n

/-- All file names in a listing are well formed. -/
def wfFiles (fls : List FSFile) : Bool := fls.all (fun f => okName f.name)

/-- All directory and file names in the forest are well formed. -/
def wfD : FSDirs → Bool
  | .nil => true
  | .cons n ch fls rest => okName n && wfFiles fls && wfD ch && wfD rest

/-- Python `os.listdir` of a directory, modelled as subdirectory names
followed by file names (one admissible OS order). -/
def listdirNames (ds : FSDirs) (fls : List FSFile) : List String :=
  dirNamesOf ds ++ fls.map (fun f => f.name)

/-- Python `name.lower()`, per character (ASCII-faithful). -/
def lowerName (n : String) : String := String.mk (n.data.map Char.toLower)

/-- The `find_readme` match test: `filename.lower().startswith("readme")`. -/
def isReadmeName (n : String) : Bool := startsWithL "readme" (lowerName n)

/-- Source: `find_readme` (source_repo_flattener.py lines 85-98), returning
the matched entry name; callers form the path as `os.path.join(root, name)`. -/
def findReadmeName (ds : FSDirs) (fls : List FSFile) : Option String :=
  (listdirNames ds fls).find? isReadmeName

/-- Content of the root-level file with the given name, if one exists. -/
def rootFileContent (fls : List FSFile) (nm : String) : Option (Option String) :=
  (fls.find? (fun f => f.name == nm)).map (fun f => f.content)

/-- One file reported by the walk: relative path, full path, bare filename,
and decoded content (`none` = undecodable). -/
structure FileEntry where
  rel : String
  full : String
  fname : String
  content : Option String
  deriving DecidableEq

/-- The kept files of one visited directory, in order: the `filenames[:]`
filter of the walk loop followed by per-file path formation. -/
def dirFileEntries (spec : String → Bool) (fullp relp : String)
    (fls : List FSFile) : List FileEntry :=
  (fls.filter (fun f => should_include_path (pathJoin fullp f.name) spec)).map
    (fun f => ⟨relJoin relp f.name, pathJoin fullp f.name, f.name, f.content⟩)

/-- The pruned depth-first `os.walk` below a directory: a subdirectory is
visited only if `should_include_path` keeps it (the `dirnames[:]` filter of
the loop), and each visited directory contributes its kept files before its
own subtree. -/
def walkDirs (spec : String → Bool) : String → String → FSDirs → List FileEntry
  | _, _, .nil => []
  | fullp, relp, .cons dn ch fls rest =>
    (if should_include_path (pathJoin fullp dn) spec then
      dirFileEntries spec (pathJoin fullp dn) (relJoin relp dn) fls ++
        walkDirs spec (pathJoin fullp dn) (relJoin relp dn) ch
     else []) ++ walkDirs spec fullp relp rest

/-- All files yielded by the pruned walk from the root, in traversal order
(root files first, then each kept subtree depth-first). -/
def walkFiles (spec : String → Bool) (rootPath : String) (ds : FSDirs)
    (fls : List FSFile) : List FileEntry :=
  dirFileEntries spec rootPath "" fls ++ walkDirs spec rootPath "" ds

/-! ## Content emitter (source_repo_flattener.py lines 101-268) -/

/-- Source: the `FILE_TYPES` table (source_repo_flattener.py lines 5-33). -/
def FILE_TYPES : List (String × String) :=
  [(".py", "python"), (".js", "javascript"), (".jsx", "jsx"),
   (".ts", "typescript"), (".tsx", "tsx"), (".swift", "swift"), (".go", "go"),
   (".java", "java"), (".c", "c"), (".cpp", "c++"), (".h", "c"),
   (".hpp", "c++"), (".cs", "csharp"), (".lua", "lua"), (".rb", "ruby"),
   (".php", "php"), (".pl", "perl"), (".html", "html"), (".css", "css"),
   (".json", "json"), (".toml", "toml"), (".md", "markdown"),
   (".yaml", "yaml"), (".yml", "yaml"), (".conf", "config"), (".ini", "ini"),
   (".sh", "shell")]

/-- Python `extension in FILE_TYPES` / `FILE_TYPES[extension]`. -/
def lookupFT (ext : String) : Option String := FILE_TYPES.lookup ext

/-- A section of the output document: the README block, or one
`## File: <relative-path>` block with its language tag and contents. -/
inductive MdSection : Type where
  | readme : String → MdSection
  | file : String → String → String → MdSection
  deriving DecidableEq

/-- Source: the per-file emission loop of `flatten_repo` content mode
(source_repo_flattener.py lines 254-266). A file is emitted when its
extension is in `FILE_TYPES` and its full path differs from the README path;
reading an undecodable file raises, which aborts the whole run (`.error`). -/
def emitSections (readmeFull : String) : List FileEntry → Except Unit (List MdSection)
  | [] => .ok []
  | e :: rest =>
    match lookupFT (splitextExt e.fname), e.full == readmeFull with
    | some lang, false =>
      match e.content with
      | none => .error ()
      | some c =>
        match emitSections readmeFull rest with
        | .error u => .error u
        | .ok l => .ok (MdSection.file e.rel lang c :: l)
    | _, _ => emitSections readmeFull rest

/-- Source: `flatten_repo` with `structure_only=False`
(source_repo_flattener.py lines 101-143 and 239-266): find the README, read
it (a directory hit or an undecodable README aborts, since the read is not
guarded), then emit the walked files. -/
def flattenContent (spec : String → Bool) (rootPath : String) (ds : FSDirs)
    (fls : List FSFile) : Except Unit (List MdSection) :=
  match findReadmeName ds fls with
  | none => emitSections "" (walkFiles spec rootPath ds fls)
  | some nm =>
    if (dirNamesOf ds).contains nm then .error ()
    else
      match rootFileContent fls nm with
      | none => .error ()
      | some none => .error ()
      | some (some c) =>
        match emitSections (pathJoin rootPath nm) (walkFiles spec rootPath ds fls) with
        | .error u => .error u
        | .ok l => .ok (MdSection.readme c :: l)

/-- The text written for one section (source_repo_flattener.py lines 132-135
and 262-265). -/
def renderSection : MdSection → String
  | .readme c => "## README\n\n" ++ "```markdown\n" ++ c ++ "\n```\n\n"
  | .file rel lang c =>
      "## File: " ++ rel ++ "\n\n" ++ "```" ++ lang ++ "\n" ++ c ++ "\n```\n\n"

/-- The whole content-mode document: title line then the sections. -/
def renderDoc (repoName : String) (secs : List MdSection) : String :=
  "# Contents of " ++ repoName ++ " source tree\n\n" ++
    String.join (secs.map renderSection)

/-! ## Structure-only mode (source_repo_flattener.py lines 144-237) -/

/-- The tree-building walk of structure-only mode: visit each kept directory
in pruned depth-first order and insert its relative-path parts and kept file
names (the root directory itself is skipped by the `continue`). -/
def walkTreeDirs (spec : String → Bool) :
    String → List String → FSDirs → Option PyTreeM → Option PyTreeM
  | _, _, .nil, t => t
  | fullp, relParts, .cons dn ch fls rest, t =>
    let t1 :=
      if should_include_path (pathJoin fullp dn) spec then
        let keptFiles := (fls.filter (fun f =>
          should_include_path (pathJoin (pathJoin fullp dn) f.name) spec)).map
            (fun f => f.name)
        let t' := t.bind (fun tt => addDirFiles tt (relParts ++ [dn]) keptFiles)
        walkTreeDirs spec (pathJoin fullp dn) (relParts ++ [dn]) ch t'
      else t
    walkTreeDirs spec fullp relParts rest t1

/-- Source: structure-only tree construction including the final root-files
pass (source_repo_flattener.py lines 217-232): kept root files are appended
after the directories collected by the walk. -/
def flattenStructureTree (spec : String → Bool) (rootPath : String)
    (ds : FSDirs) (fls : List FSFile) : Option PyTreeM :=
  (walkTreeDirs spec rootPath [] ds (some PyTreeM.nil)).map (fun t =>
    (fls.filter (fun f => should_include_path (pathJoin rootPath f.name) spec)).foldl
      (fun acc f => setT acc f.name none) t)

/-- The rendered body of the `## Folder Structure` block: the tree printed
from the synthetic root (source_repo_flattener.py line 235). -/
def flattenStructureBody (spec : String → Bool) (rootPath : String)
    (ds : FSDirs) (fls : List FSFile) : Option String :=
  (flattenStructureTree spec rootPath ds fls).map (fun t => print_tree t "" true true)

/-! ## Interactive per-file emission loop (flatten_repo.py lines 599-621) -/

/-- Source: the selected-files loop of `flatten_repo_interactive` content
mode. The filesystem lookups are abstracted as oracles: `isFileO full` is
`os.path.isfile(full_path)` and `readO full` is the guarded read, `none`
meaning the read raised (binary file). An undecodable file is skipped with a
recorded warning and the loop continues. -/
def flattenInteractiveFiles (readmeFull rootPath : String)
    (isFileO : String → Bool) (readO : String → Option String) :
    List String → List MdSection × List String
  | [] => ([], [])
  | p :: rest =>
    let res := flattenInteractiveFiles readmeFull rootPath isFileO readO rest
    let full := pathJoin rootPath p
    if isFileO full && !(full == readmeFull) then
      match lookupFT (splitextExt p) with
      | some lang =>
        match readO full with
        | some c => (MdSection.file p lang c :: res.1, res.2)
        | none => (res.1, ("Skipping binary file: " ++ p) :: res.2)
      | none => res
    else res

/-! ## Orchestrator `main`, URL branch (flatten_repo.py lines 643-668) -/

/-- Observable events of the URL branch of `main`. -/
inductive MainEv : Type where
  | mkTemp : MainEv
  | cloneCall : MainEv
  | flattenCall : MainEv
  | printErr : String → MainEv
  | rmTemp : MainEv
  deriving DecidableEq

/-- The `try` body: clone, then (on success) flatten. The second component is
the exception escaping the body, if any. -/
def urlBody (cloneRes flattenRes : Except String Unit) : List MainEv × Option String :=
  match cloneRes with
  | .error e => ([MainEv.cloneCall], some e)
  | .ok _ =>
    match flattenRes with
    | .error e => ([MainEv.cloneCall, MainEv.flattenCall], some e)
    | .ok _ => ([MainEv.cloneCall, MainEv.flattenCall], none)

/-- Python `try/except Exception/finally`: the handler consumes any escaping
exception, and the `finally` events always run; nothing is re-raised. -/
def tryExceptFinallyTrace (body : List MainEv × Option String)
    (handler : String → List MainEv) (fin : List MainEv) :
    List MainEv × Option String :=
  match body.2 with
  | none => (body.1 ++ fin, none)
  | some e => (body.1 ++ handler e ++ fin, none)

/-- Source: the URL branch of `main` (flatten_repo.py lines 649-668): make a
temp dir, try clone-then-flatten, print any exception, and remove the temp
dir in `finally`. The second component is the exception escaping `main`. -/
def mainUrl (cloneRes flattenRes : Except String Unit) : List MainEv × Option String :=
  let r := tryExceptFinallyTrace (urlBody cloneRes flattenRes)
    (fun e => [MainEv.printErr e]) [MainEv.rmTemp]
  (MainEv.mkTemp :: r.1, r.2)

/-- C1. For every path string and every ignore-file rule set, if the path
contains any of the built-in excluded substrings anywhere in it, then
`should_include_path` returns false regardless of the gitignore pattern set:
the built-in check short-circuits before the spec is consulted. -/
theorem c1_builtin_exclusion_forces_exclude (p : String) (spec : String → Bool)
    (h : builtinHit p = true) : should_include_path p spec = false := by
  unfold should_include_path
  unfold builtinHit at h
  simp [h]

/-- C1 witness: a concrete path containing `node_modules` is excluded even
under an ignore spec that matches nothing. -/
theorem c1_builtin_exclusion_forces_exclude_witness :
    builtinHit "src/node_modules/a.py" = true ∧
      should_include_path "src/node_modules/a.py" (fun _ => false) = false :=
  ⟨by decide, c1_builtin_exclusion_forces_exclude "src/node_modules/a.py"
    (fun _ => false) (by decide)⟩

/-! ## Lemmas about `stripGitAll` (claim C6) -/

/-- A cons cell that does not start the pattern `.git` is copied through. -/
lemma stripGitAll_cons_of_not_git (c : Char) (rest : List Char)
    (h : ¬ gitChars <+: (c :: rest)) :
    stripGitAll (c :: rest) = c :: stripGitAll rest := by
  rw [stripGitAll.eq_def]
  split
  · rename_i r heq
    exfalso
    apply h
    rw [show c :: rest = '.' :: 'g' :: 'i' :: 't' :: r from heq]
    exact ⟨r, rfl⟩
  · rename_i heq
    injection heq with h1 h2
    subst h1; subst h2; rfl
  · rename_i heq
    exact absurd heq (by simp)

/-- If the only occurrence of `.git` in `l' ++ ".git"` is the trailing one,
then `stripGitAll` removes exactly that suffix. -/
lemma stripGitAll_only_trailing :
    ∀ l' : List Char, ¬ gitChars <:+: (l' ++ gitChars).dropLast →
      stripGitAll (l' ++ gitChars) = l' := by
  intro l'
  induction l' with
  | nil => intro _; rfl
  | cons c t ih =>
    intro h
    have hnp : ¬ gitChars <+: (c :: (t ++ gitChars)) := by
      intro hp
      apply h
      obtain ⟨r, hr⟩ := hp
      have hrlen : r.length = t.length + 1 := by
        have := congrArg List.length hr
        simpa [gitChars] using this
      have hr0 : r ≠ [] := by
        intro hh; rw [hh] at hrlen; simp at hrlen
      rw [List.cons_append, ← hr, List.dropLast_append_of_ne_nil gitChars hr0]
      exact (List.prefix_append gitChars r.dropLast).isInfix
    rw [List.cons_append, stripGitAll_cons_of_not_git c (t ++ gitChars) hnp]
    congr 1
    apply ih
    intro hin
    apply h
    have hne : t ++ gitChars ≠ [] := by simp [gitChars]
    rw [List.cons_append, List.dropLast_cons_of_ne_nil hne]
    exact List.infix_cons hin

/-- C6 counterexample: on `https://example.com/foo.github.git`, the code's
`get_repo_name` removes every occurrence of `.git` from the basename
(yielding `foohub`), while the claim's strip-a-trailing-suffix reading would
yield `foo.github`. -/
theorem c6_counterexample_inner_git_also_removed :
    get_repo_name "https://example.com/foo.github.git" = "foohub" ∧
      stripTrailingGitSpec (pyBasename "https://example.com/foo.github.git") =
        "foo.github" ∧
      get_repo_name "https://example.com/foo.github.git" ≠
        stripTrailingGitSpec (pyBasename "https://example.com/foo.github.git") :=
  ⟨by decide, by decide, by decide⟩

/-- C6 amended: for a URL-like input, `get_repo_name` removes every occurrence
of `.git` from the basename; in particular, when `.git` occurs in the basename
only as its trailing suffix, the result is the basename with that suffix
stripped. -/
theorem c6_amended_trailing_git_stripped (s : String) (l' : List Char)
    (hurl : urlLike s = true)
    (hsuf : (pyBasename s).data = l' ++ gitChars)
    (hin : ¬ gitChars <:+: (pyBasename s).data.dropLast) :
    get_repo_name s = String.mk l' := by
  unfold get_repo_name
  simp only [hurl, if_true]
  rw [hsuf] at hin ⊢
  exact congrArg String.mk (stripGitAll_only_trailing l' hin)

/-- C6 witness: the amended claim at a concrete URL whose basename ends in a
single trailing `.git`. -/
theorem c6_amended_trailing_git_stripped_witness :
    get_repo_name "https://github.com/user/repo.git" =
      String.mk ['r', 'e', 'p', 'o'] :=
  c6_amended_trailing_git_stripped "https://github.com/user/repo.git"
    ['r', 'e', 'p', 'o'] (by decide) (by decide) (by decide)

/-! ## Lemmas about the tree dictionary operations -/

/-- Assignment followed by lookup of the same key yields the assigned value. -/
lemma lookupT_setT (t : PyTreeM) (k : String) (v : Option PyTreeM) :
    lookupT (setT t k v) k = some v := by
  induction t with
  | nil => cases v <;> simp [setT, entryCons, lookupT]
  | consFile k' rest ih =>
    by_cases hk : k' = k
    · subst hk; cases v <;> simp [setT, entryCons, lookupT]
    · simp [setT, hk, lookupT, ih]
  | consDir k' sub rest ih1 ih2 =>
    by_cases hk : k' = k
    · subst hk; cases v <;> simp [setT, entryCons, lookupT]
    · simp [setT, hk, lookupT, ih2]

/-- Assigning a key the value it already holds leaves the dict unchanged. -/
lemma setT_self (t : PyTreeM) (k : String) (v : Option PyTreeM)
    (h : lookupT t k = some v) : setT t k v = t := by
  induction t with
  | nil => simp [lookupT] at h
  | consFile k' rest ih =>
    by_cases hk : k' = k
    · subst hk
      simp [lookupT] at h
      simp [setT, ← h, entryCons]
    · simp [lookupT, hk] at h
      simp [setT, hk, ih h]
  | consDir k' sub rest ih1 ih2 =>
    by_cases hk : k' = k
    · subst hk
      simp [lookupT] at h
      simp [setT, ← h, entryCons]
    · simp [lookupT, hk] at h
      simp [setT, hk, ih2 h]

/-- Re-inserting an already-inserted directory path is a no-op. -/
lemma addDirParts_idem :
    ∀ (parts : List String) (t t' : PyTreeM),
      addDirParts t parts = some t' → addDirParts t' parts = some t' := by
  intro parts
  induction parts with
  | nil =>
    intro t t' h
    simp [addDirParts] at h
    simp [addDirParts, h]
  | cons p rest ih =>
    intro t t' h
    rw [addDirParts] at h
    cases hl : lookupT t p with
    | none =>
      rw [hl] at h
      obtain ⟨sub, hsub, ht'⟩ := Option.map_eq_some'.mp h
      subst ht'
      simp only [addDirParts, lookupT_setT, ih .nil sub hsub, Option.map_some']
      rw [setT_self _ _ _ (lookupT_setT t p (some sub))]
    | some vv =>
      cases vv with
      | none =>
        rw [hl] at h
        by_cases hr : rest.isEmpty
        · simp [hr] at h
          subst h
          rw [addDirParts, hl]
          simp [hr]
        · simp [hr] at h
      | some sub =>
        rw [hl] at h
        obtain ⟨s2, hs2, ht'⟩ := Option.map_eq_some'.mp h
        subst ht'
        simp only [addDirParts, lookupT_setT, ih sub s2 hs2, Option.map_some']
        rw [setT_self _ _ _ (lookupT_setT t p (some s2))]

/-- Re-inserting an already-inserted file path is a no-op. -/
lemma addFileParts_idem :
    ∀ (parts : List String) (fname : String) (t t' : PyTreeM),
      addFileParts t parts fname = some t' → addFileParts t' parts fname = some t' := by
  intro parts
  induction parts with
  | nil =>
    intro fname t t' h
    simp [addFileParts] at h
    subst h
    rw [addFileParts, setT_self _ _ _ (lookupT_setT t fname none)]
  | cons p rest ih =>
    intro fname t t' h
    rw [addFileParts] at h
    cases hl : lookupT t p with
    | none =>
      rw [hl] at h
      obtain ⟨sub, hsub, ht'⟩ := Option.map_eq_some'.mp h
      subst ht'
      simp only [addFileParts, lookupT_setT, ih fname .nil sub hsub, Option.map_some']
      rw [setT_self _ _ _ (lookupT_setT t p (some sub))]
    | some vv =>
      cases vv with
      | none => rw [hl] at h; exact absurd h (by simp)
      | some sub =>
        rw [hl] at h
        obtain ⟨s2, hs2, ht'⟩ := Option.map_eq_some'.mp h
        subst ht'
        simp only [addFileParts, lookupT_setT, ih fname sub s2 hs2, Option.map_some']
        rw [setT_self _ _ _ (lookupT_setT t p (some s2))]

/-- C7. Tree construction is idempotent: if inserting a directory path (or a
file path) into a tree succeeds and yields a tree, inserting the same path
into the result succeeds and leaves it unchanged — creating an already-present
key is a no-op, so inserting the same path twice equals inserting it once. -/
theorem c7_tree_insertion_idempotent (t t₁ t₂ : PyTreeM) (parts : List String)
    (fname : String) :
    (addDirParts t parts = some t₁ → addDirParts t₁ parts = some t₁) ∧
      (addFileParts t parts fname = some t₂ → addFileParts t₂ parts fname = some t₂) :=
  ⟨addDirParts_idem parts t t₁, addFileParts_idem parts fname t t₂⟩

/-- C7 witness: idempotence at the concrete path `a/b` (directory insertion)
and the concrete file path `a/b/f`, starting from the empty tree. -/
theorem c7_tree_insertion_idempotent_witness :
    addDirParts (PyTreeM.consDir "a" (PyTreeM.consDir "b" .nil .nil) .nil)
        ["a", "b"] = some (PyTreeM.consDir "a" (PyTreeM.consDir "b" .nil .nil) .nil) ∧
      addFileParts
        (PyTreeM.consDir "a" (PyTreeM.consDir "b" (PyTreeM.consFile "f" .nil) .nil) .nil)
        ["a", "b"] "f" =
        some (PyTreeM.consDir "a"
          (PyTreeM.consDir "b" (PyTreeM.consFile "f" .nil) .nil) .nil) :=
  ⟨(c7_tree_insertion_idempotent .nil
      (PyTreeM.consDir "a" (PyTreeM.consDir "b" .nil .nil) .nil)
      (PyTreeM.consDir "a" (PyTreeM.consDir "b" (PyTreeM.consFile "f" .nil) .nil) .nil)
      ["a", "b"] "f").1 (by decide),
   (c7_tree_insertion_idempotent .nil
      (PyTreeM.consDir "a" (PyTreeM.consDir "b" .nil .nil) .nil)
      (PyTreeM.consDir "a" (PyTreeM.consDir "b" (PyTreeM.consFile "f" .nil) .nil) .nil)
      ["a", "b"] "f").2 (by decide)⟩

/-! ## Root and non-root rendering branches -/

/-- The two duplicated loops of `print_tree` compute the same string. -/
lemma rootLoop_eq_nonRootLoop (t : PyTreeM) : ∀ pre : String,
    printRootLoop t pre = printNonRootLoop t pre := by
  induction t with
  | nil => intro pre; simp [printRootLoop, printNonRootLoop]
  | consFile k rest ih =>
    intro pre
    simp only [printRootLoop, printNonRootLoop]
    rw [ih]
  | consDir k sub rest ih1 ih2 =>
    intro pre
    simp only [printRootLoop, printNonRootLoop]
    rw [ih2]

/-- C9. For every tree value and every prefix, `print_tree` with
`is_root = true` produces exactly the same output as with `is_root = false`:
the duplicated root/non-root branches of the renderer are behaviorally
identical. -/
theorem c9_root_branch_equals_nonroot_branch (t : PyTreeM) (pre : String)
    (il : Bool) : print_tree t pre il true = print_tree t pre il false := by
  simp only [print_tree, if_true, if_false]
  exact rootLoop_eq_nonRootLoop t pre

/-- Rendering the empty dict yields the empty string, in both branches. -/
lemma print_tree_nil (pre : String) (il ir : Bool) :
    print_tree PyTreeM.nil pre il ir = "" := by
  cases ir <;> simp [print_tree, printRootLoop, printNonRootLoop]

/-! ## Claim C8: empty tree renders as the empty string -/

/-- C8. Rendering an empty tree returns the empty string without failing, and
the folder-structure body built from an empty path set is `some ""`. -/
theorem c8_empty_tree_renders_empty_string (pre : String) (il ir : Bool)
    (spec : String → Bool) (rootPath : String) :
    print_tree PyTreeM.nil pre il ir = "" ∧
      flattenStructureBody spec rootPath FSDirs.nil [] = some "" := by
  refine ⟨print_tree_nil pre il ir, ?_⟩
  simp [flattenStructureBody, flattenStructureTree, walkTreeDirs, print_tree_nil]

/-! ## Claim C5: scratch-directory lifecycle in the URL branch of main -/

/-- C5 counterexample: on a clone failure, `main` catches the exception and
prints it — no error escapes to the caller, refuting the claim that the
failure is propagated as a fatal error (the scratch directory is removed). -/
theorem c5_counterexample_clone_error_not_propagated :
    (mainUrl (Except.error "clone failed") (Except.ok ())).2 = none ∧
      MainEv.printErr "clone failed" ∈
        (mainUrl (Except.error "clone failed") (Except.ok ())).1 ∧
      MainEv.rmTemp ∈ (mainUrl (Except.error "clone failed") (Except.ok ())).1 := by
  decide

/-- C5 amended: the scratch directory is removed on every exit path (and is
the last action), no exception ever escapes `main`, and a clone failure is
reported by printing the error rather than propagated to the caller. -/
theorem c5_amended_scratch_always_removed_error_reported
    (cloneRes flattenRes : Except String Unit) :
    (mainUrl cloneRes flattenRes).2 = none ∧
      (mainUrl cloneRes flattenRes).1.getLast? = some MainEv.rmTemp ∧
      (∀ e, cloneRes = Except.error e →
        MainEv.printErr e ∈ (mainUrl cloneRes flattenRes).1) := by
  cases cloneRes with
  | error e =>
    refine ⟨rfl, rfl, ?_⟩
    intro e' he
    obtain rfl : e = e' := by injection he
    simp [mainUrl, tryExceptFinallyTrace, urlBody]
  | ok u =>
    cases flattenRes with
    | error e => exact ⟨rfl, rfl, fun e' he => absurd he (by simp)⟩
    | ok v => exact ⟨rfl, rfl, fun e' he => absurd he (by simp)⟩

/-- C5 witness: the amended claim instantiated at a failing clone. -/
theorem c5_amended_scratch_always_removed_error_reported_witness :
    MainEv.printErr "boom" ∈ (mainUrl (Except.error "boom") (Except.ok ())).1 :=
  (c5_amended_scratch_always_removed_error_reported (Except.error "boom")
    (Except.ok ())).2.2 "boom" rfl

/-! ## Claim C2: behaviour on undecodable files during content emission -/

/-- C2 counterexample: in the non-interactive `flatten_repo` content mode, an
undecodable file with a recognized extension aborts the whole run (the read
is unguarded), instead of being skipped with a warning: with `a.py`
undecodable, the run errors and the later file `b.py` is never emitted. -/
theorem c2_counterexample_noninteractive_aborts_on_binary :
    flattenContent (fun _ => false) "/r" FSDirs.nil
      [⟨"a.py", none⟩, ⟨"b.py", some "OK"⟩] = Except.error () := rfl

/-- C2 amended: only the interactive path skips an undecodable file: in
`flatten_repo_interactive`, a selected regular file with a recognized
extension whose read fails is skipped with a recorded warning, and the
remaining selected files are processed exactly as without it; the
non-interactive `flatten_repo` path instead aborts on such a file. -/
theorem c2_amended_interactive_skips_binary_and_continues
    (readmeFull rootPath p lang : String) (rest : List String)
    (isFileO : String → Bool) (readO : String → Option String)
    (hfile : isFileO (pathJoin rootPath p) = true)
    (hreadme : (pathJoin rootPath p == readmeFull) = false)
    (hext : lookupFT (splitextExt p) = some lang)
    (hread : readO (pathJoin rootPath p) = none) :
    flattenInteractiveFiles readmeFull rootPath isFileO readO (p :: rest) =
      ((flattenInteractiveFiles readmeFull rootPath isFileO readO rest).1,
        ("Skipping binary file: " ++ p) ::
          (flattenInteractiveFiles readmeFull rootPath isFileO readO rest).2) := by
  rw [flattenInteractiveFiles]
  simp [hfile, hreadme, hext, hread]

/-- C2 witness: the amended interactive behaviour at a concrete undecodable
`a.py` as the sole selected file. -/
theorem c2_amended_interactive_skips_binary_and_continues_witness :
    flattenInteractiveFiles "" "/r" (fun _ => true) (fun _ => none) ["a.py"] =
      ([], ["Skipping binary file: " ++ "a.py"]) :=
  c2_amended_interactive_skips_binary_and_continues "" "/r" "a.py" "python" []
    (fun _ => true) (fun _ => none) rfl (by decide) (by decide) rfl

/-! ## Path and walk lemmas (claims C3, C4, C10) -/

/-- Substring containment survives appending on the right. -/
lemma containsSub_append (e r x : String) (h : containsSub e r = true) :
    containsSub e (r ++ x) = true := by
  unfold containsSub at h ⊢
  simp only [decide_eq_true_eq] at h ⊢
  rw [String.data_append]
  exact h.trans (List.prefix_append _ _).isInfix

/-- Substring containment survives `os.path.join` with a non-absolute
component. -/
lemma containsSub_pathJoin (e r b : String) (h : containsSub e r = true)
    (hb : startsWithL "/" b = false) : containsSub e (pathJoin r b) = true := by
  unfold pathJoin
  rw [hb]
  simp only [Bool.false_eq_true, if_false]
  split
  · exact containsSub_append e r b h
  · rw [show r ++ "/" ++ b = (r ++ "/") ++ b from rfl]
    exact containsSub_append e (r ++ "/") b (containsSub_append e r "/" h)

/-- A built-in exclusion hit on a path also hits any joined extension of it. -/
lemma builtinHit_pathJoin (r b : String) (hb : builtinHit r = true)
    (hn : startsWithL "/" b = false) : builtinHit (pathJoin r b) = true := by
  unfold builtinHit at hb ⊢
  obtain ⟨e, he, hce⟩ := List.any_eq_true.mp hb
  exact List.any_eq_true.mpr ⟨e, he, containsSub_pathJoin e r b hce hn⟩

/-- A path with a built-in exclusion hit is excluded by the matcher. -/
lemma should_include_path_eq_false_of_hit (p : String) (spec : String → Bool)
    (h : builtinHit p = true) : should_include_path p spec = false := by
  unfold should_include_path
  unfold builtinHit at h
  simp [h]

/-- A string starting with the separator contains it. -/
lemma startsWith_slash_contains (n : String) (h : startsWithL "/" n = true) :
    containsSub "/" n = true := by
  unfold startsWithL at h
  unfold containsSub
  simp only [decide_eq_true_eq]
  exact (List.isPrefixOf_iff_prefix.mp h).isInfix

/-- A well-formed entry name does not contain the separator. -/
lemma okName_no_slash (n : String) (h : okName n = true) :
    containsSub "/" n = false := by
  unfold okName at h
  rw [Bool.and_eq_true] at h
  simpa using h.2

/-- A well-formed entry name is nonempty. -/
lemma okName_ne_empty (n : String) (h : okName n = true) : n ≠ "" := by
  unfold okName at h
  rw [Bool.and_eq_true] at h
  simpa using h.1

/-- A well-formed entry name is not an absolute path. -/
lemma okName_not_abs (n : String) (h : okName n = true) :
    startsWithL "/" n = false := by
  cases hsw : startsWithL "/" n with
  | false => rfl
  | true =>
    exact absurd (startsWith_slash_contains n hsw) (by simp [okName_no_slash n h])

/-- Top-level directory names of a well-formed forest are well formed. -/
lemma wfD_dirNames (ds : FSDirs) (h : wfD ds = true) :
    ∀ n ∈ dirNamesOf ds, okName n = true := by
  induction ds with
  | nil => intro n hn; simp [dirNamesOf] at hn
  | cons dn ch fls rest ihc ihr =>
    intro n hn
    unfold wfD at h
    simp only [Bool.and_eq_true] at h
    rw [dirNamesOf, List.mem_cons] at hn
    rcases hn with rfl | hn
    · exact h.1.1.1
    · exact ihr h.2 n hn

/-- File names of a well-formed listing are well formed. -/
lemma wfFiles_names (fls : List FSFile) (h : wfFiles fls = true) :
    ∀ f ∈ fls, okName f.name = true := by
  intro f hf
  exact List.all_eq_true.mp h f hf

/-- A relative join onto a nonempty prefix contains the separator. -/
lemma relJoin_contains_slash (r n : String) (hr : r ≠ "") :
    containsSub "/" (relJoin r n) = true := by
  unfold relJoin
  rw [if_neg hr]
  unfold containsSub
  simp only [decide_eq_true_eq]
  refine ⟨r.data, n.data, ?_⟩
  simp [String.data_append]

/-- A relative join onto a nonempty prefix is nonempty. -/
lemma relJoin_ne_empty (r n : String) (hr : r ≠ "") : relJoin r n ≠ "" := by
  unfold relJoin
  rw [if_neg hr]
  intro h
  have := congrArg String.data h
  simp [String.data_append] at this

/-- Every entry reported for one visited directory comes from one of its
files, with the recorded paths formed by joining. -/
lemma dirFileEntries_src (spec : String → Bool) (fullp relp : String)
    (fls : List FSFile) :
    ∀ e ∈ dirFileEntries spec fullp relp fls, ∃ f : FSFile, f ∈ fls ∧
      e.rel = relJoin relp f.name ∧ e.full = pathJoin fullp f.name ∧
      e.fname = f.name ∧ e.content = f.content := by
  intro e he
  unfold dirFileEntries at he
  rw [List.mem_map] at he
  obtain ⟨f, hf, rfl⟩ := he
  exact ⟨f, List.mem_of_mem_filter hf, rfl, rfl, rfl, rfl⟩

/-- Below a nonempty relative prefix, every walked entry's relative path
contains the separator. -/
lemma walkDirs_rel_has_slash :
    ∀ (ds : FSDirs) (spec : String → Bool) (fullp relp : String), relp ≠ "" →
      ∀ e ∈ walkDirs spec fullp relp ds, containsSub "/" e.rel = true := by
  intro ds
  induction ds with
  | nil => intro spec fullp relp hr e he; simp [walkDirs] at he
  | cons dn ch fls rest ihc ihr =>
    intro spec fullp relp hr e he
    rw [walkDirs, List.mem_append] at he
    rcases he with he | he
    · cases hinc : should_include_path (pathJoin fullp dn) spec with
      | false => rw [hinc] at he; simp at he
      | true =>
        rw [hinc] at he
        simp only [if_true] at he
        rw [List.mem_append] at he
        rcases he with he | he
        · obtain ⟨f, _, hrel, _, _, _⟩ :=
            dirFileEntries_src spec (pathJoin fullp dn) (relJoin relp dn) fls e he
          rw [hrel]
          exact relJoin_contains_slash _ _ (relJoin_ne_empty relp dn hr)
        · exact ihc spec (pathJoin fullp dn) (relJoin relp dn)
            (relJoin_ne_empty relp dn hr) e he
    · exact ihr spec fullp relp hr e he

/-- From the root (empty relative prefix) of a well-formed forest, every
entry found below a subdirectory has a separator in its relative path. -/
lemma walkDirs_root_rel_has_slash :
    ∀ (ds : FSDirs) (spec : String → Bool) (fullp : String), wfD ds = true →
      ∀ e ∈ walkDirs spec fullp "" ds, containsSub "/" e.rel = true := by
  intro ds
  induction ds with
  | nil => intro spec fullp _ e he; simp [walkDirs] at he
  | cons dn ch fls rest ihc ihr =>
    intro spec fullp hwf e he
    unfold wfD at hwf
    simp only [Bool.and_eq_true] at hwf
    have hdn : dn ≠ "" := okName_ne_empty dn hwf.1.1.1
    rw [walkDirs, List.mem_append] at he
    rcases he with he | he
    · cases hinc : should_include_path (pathJoin fullp dn) spec with
      | false => rw [hinc] at he; simp at he
      | true =>
        rw [hinc] at he
        simp only [if_true] at he
        rw [List.mem_append] at he
        have hreq : relJoin "" dn = dn := by simp [relJoin]
        rcases he with he | he
        · obtain ⟨f, _, hrel, _, _, _⟩ :=
            dirFileEntries_src spec (pathJoin fullp dn) (relJoin "" dn) fls e he
          rw [hrel, hreq]
          exact relJoin_contains_slash _ _ hdn
        · rw [hreq] at he
          exact walkDirs_rel_has_slash ch spec (pathJoin fullp dn) dn hdn e he
    · exact ihr spec fullp hwf.2 e he

/-- Every section produced by the per-file emission loop comes from an entry
of the walked file list whose extension is recognized, whose full path is not
the README path, and whose content decoded. -/
lemma emitSections_mem :
    ∀ (rf : String) (entries : List FileEntry) (secs : List MdSection),
      emitSections rf entries = Except.ok secs →
      ∀ s ∈ secs, ∃ e, e ∈ entries ∧ (e.full == rf) = false ∧
        ∃ lang c, lookupFT (splitextExt e.fname) = some lang ∧
          e.content = some c ∧ s = MdSection.file e.rel lang c := by
  intro rf entries
  induction entries with
  | nil =>
    intro secs h s hs
    simp only [emitSections, Except.ok.injEq] at h
    subst h
    simp at hs
  | cons e rest ih =>
    intro secs h s hs
    rw [emitSections] at h
    cases hft : lookupFT (splitextExt e.fname) with
    | none =>
      rw [hft] at h
      obtain ⟨e', he', hrest⟩ := ih secs h s hs
      exact ⟨e', List.mem_cons_of_mem e he', hrest⟩
    | some lang =>
      rw [hft] at h
      cases hfull : e.full == rf with
      | true =>
        rw [hfull] at h
        obtain ⟨e', he', hrest⟩ := ih secs h s hs
        exact ⟨e', List.mem_cons_of_mem e he', hrest⟩
      | false =>
        rw [hfull] at h
        cases hc : e.content with
        | none => rw [hc] at h; exact absurd h (by simp)
        | some c =>
          rw [hc] at h
          cases hrec : emitSections rf rest with
          | error u => rw [hrec] at h; exact absurd h (by simp)
          | ok l =>
            rw [hrec] at h
            simp only [Except.ok.injEq] at h
            subst h
            rw [List.mem_cons] at hs
            rcases hs with rfl | hs
            · exact ⟨e, List.mem_cons_self e rest, hfull, lang, c, hft, hc, rfl⟩
            · obtain ⟨e', he', hrest⟩ := ih l hrec s hs
              exact ⟨e', List.mem_cons_of_mem e he', hrest⟩

/-- The README name found by `find_readme` on a well-formed repository is a
well-formed entry name. -/
lemma findReadmeName_ok (ds : FSDirs) (fls : List FSFile) (nm : String)
    (hwfd : wfD ds = true) (hwff : wfFiles fls = true)
    (h : findReadmeName ds fls = some nm) : okName nm = true := by
  have hmem : nm ∈ listdirNames ds fls := List.mem_of_find?_eq_some h
  unfold listdirNames at hmem
  rw [List.mem_append] at hmem
  rcases hmem with hmem | hmem
  · exact wfD_dirNames ds hwfd nm hmem
  · rw [List.mem_map] at hmem
    obtain ⟨f, hf, rfl⟩ := hmem
    exact wfFiles_names fls hwff f hf

/-- C3 amended: in content mode, every `## File:` section of the output comes
from a walked file whose filename's extension is a key of the recognized
file-type table; hence the per-file loop never emits the contents of a file
with an unrecognized extension. The README block is the sole exception: its
contents are emitted regardless of its extension (see the counterexample). -/
theorem c3_amended_file_sections_only_recognized (spec : String → Bool)
    (rootPath : String) (ds : FSDirs) (fls : List FSFile)
    (secs : List MdSection)
    (hok : flattenContent spec rootPath ds fls = Except.ok secs) :
    ∀ rel lang c, MdSection.file rel lang c ∈ secs →
      ∃ e, e ∈ walkFiles spec rootPath ds fls ∧ e.rel = rel ∧
        e.content = some c ∧ lookupFT (splitextExt e.fname) = some lang := by
  intro rel lang c hmem
  unfold flattenContent at hok
  split at hok
  · obtain ⟨e, he, _, lang', c', hft, hcont, heq⟩ :=
      emitSections_mem "" (walkFiles spec rootPath ds fls) secs hok _ hmem
    injection heq with h1 h2 h3
    subst h1; subst h2; subst h3
    exact ⟨e, he, rfl, hcont, hft⟩
  · rename_i nm hfr
    split at hok
    · exact absurd hok (by simp)
    · split at hok
      · exact absurd hok (by simp)
      · exact absurd hok (by simp)
      · rename_i c0 hrc
        split at hok
        · exact absurd hok (by simp)
        · rename_i l hemit
          simp only [Except.ok.injEq] at hok
          subst hok
          rw [List.mem_cons] at hmem
          rcases hmem with heq | hmem
          · exact absurd heq (by simp)
          · obtain ⟨e, he, _, lang', c', hft, hcont, heq⟩ :=
              emitSections_mem _ _ _ hemit _ hmem
            injection heq with h1 h2 h3
            subst h1; subst h2; subst h3
            exact ⟨e, he, rfl, hcont, hft⟩

/-- C3 witness: the amended claim applied to a one-file repository whose only
file `a.py` is recognized and emitted. -/
theorem c3_amended_file_sections_only_recognized_witness :
    ∃ e, e ∈ walkFiles (fun _ => false) "/r" FSDirs.nil
        [⟨"a.py", some "PAYLOAD"⟩] ∧
      e.rel = "a.py" ∧ e.content = some "PAYLOAD" ∧
      lookupFT (splitextExt e.fname) = some "python" :=
  c3_amended_file_sections_only_recognized (fun _ => false) "/r" FSDirs.nil
    [⟨"a.py", some "PAYLOAD"⟩] [MdSection.file "a.py" "python" "PAYLOAD"] rfl
    "a.py" "python" "PAYLOAD" (by simp)

/-- C3 counterexample: a README whose extension `.txt` is not in the
file-type table still has its literal contents emitted into the content-mode
document (inside the README block), refuting the universal reading of the
claim. -/
theorem c3_counterexample_readme_with_unrecognized_extension :
    lookupFT (splitextExt "README.txt") = none ∧
      flattenContent (fun _ => false) "/r" FSDirs.nil
        [⟨"README.txt", some "SECRETPAYLOAD"⟩] =
        Except.ok [MdSection.readme "SECRETPAYLOAD"] ∧
      containsSub "SECRETPAYLOAD"
        (renderDoc "r" [MdSection.readme "SECRETPAYLOAD"]) = true :=
  ⟨by decide, rfl, by decide⟩

/-- C4. In content mode, a repository with a designated README (well-formed
names, run succeeding) produces a section list headed by a single README
block: the README section comes before every file section, every later
section is a `## File:` section, and no file section carries the README's
relative path — the per-file loop skips the designated README. -/
theorem c4_readme_emitted_once_before_files (spec : String → Bool)
    (rootPath : String) (ds : FSDirs) (fls : List FSFile) (nm : String)
    (secs : List MdSection)
    (hwfd : wfD ds = true) (hwff : wfFiles fls = true)
    (hnm : findReadmeName ds fls = some nm)
    (hok : flattenContent spec rootPath ds fls = Except.ok secs) :
    ∃ c tail, secs = MdSection.readme c :: tail ∧
      (∀ s ∈ tail, ∃ rel lang cc, s = MdSection.file rel lang cc) ∧
      (∀ rel lang cc, MdSection.file rel lang cc ∈ secs → rel ≠ nm) := by
  unfold flattenContent at hok
  split at hok
  · rename_i hfr
    rw [hnm] at hfr
    exact absurd hfr (by simp)
  · rename_i nm' hfr
    rw [hnm] at hfr
    injection hfr with hfr'
    subst hfr'
    split at hok
    · exact absurd hok (by simp)
    · split at hok
      · exact absurd hok (by simp)
      · exact absurd hok (by simp)
      · rename_i c0 hrc
        split at hok
        · exact absurd hok (by simp)
        · rename_i l hemit
          simp only [Except.ok.injEq] at hok
          subst hok
          refine ⟨c0, l, rfl, ?_, ?_⟩
          · intro s hs
            obtain ⟨e, _, _, lang, cc, _, _, rfl⟩ :=
              emitSections_mem _ _ _ hemit s hs
            exact ⟨e.rel, lang, cc, rfl⟩
          · intro rel lang cc hmem hrel
            rw [List.mem_cons] at hmem
            rcases hmem with heq | hmem
            · exact absurd heq (by simp)
            · obtain ⟨e, he, hfull, lang', cc', hft, hcont, heq⟩ :=
                emitSections_mem _ _ _ hemit _ hmem
              injection heq with h1 h2 h3
              have hrelnm : e.rel = nm := by rw [← h1, ← hrel]
              have hnoslash : containsSub "/" nm = false :=
                okName_no_slash nm (findReadmeName_ok ds fls nm hwfd hwff hnm)
              unfold walkFiles at he
              rw [List.mem_append] at he
              rcases he with he | he
              · obtain ⟨f, hf, hrel2, hfull2, _, _⟩ :=
                  dirFileEntries_src spec rootPath "" fls e he
                have hfn : e.rel = f.name := by rw [hrel2]; simp [relJoin]
                have hfr2 : e.full = pathJoin rootPath nm := by
                  rw [hfull2, ← hfn, hrelnm]
                rw [hfr2] at hfull
                simp at hfull
              · have hslash := walkDirs_root_rel_has_slash ds spec rootPath hwfd e he
                rw [hrelnm] at hslash
                rw [hnoslash] at hslash
                exact absurd hslash (by simp)

/-- C4 witness: the theorem applied to a concrete repository with `README.md`
and `a.py`, whose run yields a README section followed by one file section. -/
theorem c4_readme_emitted_once_before_files_witness :
    ∃ c tail,
      ([MdSection.readme "# hi", MdSection.file "a.py" "python" "code"] :
          List MdSection) = MdSection.readme c :: tail ∧
        (∀ s ∈ tail, ∃ rel lang cc, s = MdSection.file rel lang cc) ∧
        (∀ rel lang cc,
          MdSection.file rel lang cc ∈
            ([MdSection.readme "# hi", MdSection.file "a.py" "python" "code"] :
              List MdSection) → rel ≠ "README.md") :=
  c4_readme_emitted_once_before_files (fun _ => false) "/r" FSDirs.nil
    [⟨"README.md", some "# hi"⟩, ⟨"a.py", some "code"⟩] "README.md"
    [MdSection.readme "# hi", MdSection.file "a.py" "python" "code"]
    (by decide) (by decide) (by decide) rfl

/-- When a directory's own path has a built-in hit, every file beneath it is
filtered out. -/
lemma dirFileEntries_nil_of_hit (spec : String → Bool) (fullp relp : String)
    (fls : List FSFile) (hb : builtinHit fullp = true)
    (hwf : wfFiles fls = true) : dirFileEntries spec fullp relp fls = [] := by
  unfold dirFileEntries
  rw [show fls.filter
      (fun f => should_include_path (pathJoin fullp f.name) spec) = []
    from ?_]
  · rfl
  · rw [List.filter_eq_nil_iff]
    intro f hf
    rw [should_include_path_eq_false_of_hit _ spec
      (builtinHit_pathJoin fullp f.name hb
        (okName_not_abs f.name (wfFiles_names fls hwf f hf)))]
    simp

/-- When the walk root's path has a built-in hit, the pruned walk below any
well-formed forest yields nothing: every subdirectory is pruned at once. -/
lemma walkDirs_nil_of_hit :
    ∀ (ds : FSDirs) (spec : String → Bool) (fullp relp : String),
      builtinHit fullp = true → wfD ds = true →
      walkDirs spec fullp relp ds = [] := by
  intro ds
  induction ds with
  | nil => intro spec fullp relp _ _; rfl
  | cons dn ch fls rest ihc ihr =>
    intro spec fullp relp hb hwf
    unfold wfD at hwf
    simp only [Bool.and_eq_true] at hwf
    rw [walkDirs]
    rw [should_include_path_eq_false_of_hit _ spec
      (builtinHit_pathJoin fullp dn hb (okName_not_abs dn hwf.1.1.1))]
    simp only [Bool.false_eq_true, if_false, List.nil_append]
    exact ihr spec fullp relp hb hwf.2

/-- When the walk root's path has a built-in hit, the structure-mode tree
walk inserts nothing. -/
lemma walkTreeDirs_id_of_hit :
    ∀ (ds : FSDirs) (spec : String → Bool) (fullp : String)
      (relParts : List String) (t : Option PyTreeM),
      builtinHit fullp = true → wfD ds = true →
      walkTreeDirs spec fullp relParts ds t = t := by
  intro ds
  induction ds with
  | nil => intro spec fullp relParts t _ _; rfl
  | cons dn ch fls rest ihc ihr =>
    intro spec fullp relParts t hb hwf
    unfold wfD at hwf
    simp only [Bool.and_eq_true] at hwf
    rw [walkTreeDirs]
    rw [should_include_path_eq_false_of_hit _ spec
      (builtinHit_pathJoin fullp dn hb (okName_not_abs dn hwf.1.1.1))]
    simp only [Bool.false_eq_true, if_false]
    exact ihr spec fullp relParts t hb hwf.2

/-- C10. The built-in check applies to the full joined path, so when the
repository root's own path contains a built-in excluded substring, every
entry beneath it is excluded: the matcher rejects every joined path, the
content-mode walk yields no files, the content-mode output has no file
sections, and the structure-mode tree body is empty. -/
theorem c10_root_builtin_hit_excludes_everything (spec : String → Bool)
    (rootPath name : String) (ds : FSDirs) (fls : List FSFile)
    (hb : builtinHit rootPath = true)
    (hn : startsWithL "/" name = false)
    (hwfd : wfD ds = true) (hwff : wfFiles fls = true) :
    should_include_path (pathJoin rootPath name) spec = false ∧
      walkFiles spec rootPath ds fls = [] ∧
      (∀ secs, flattenContent spec rootPath ds fls = Except.ok secs →
        ∀ rel lang c, MdSection.file rel lang c ∉ secs) ∧
      flattenStructureBody spec rootPath ds fls = some "" := by
  have hwalk : walkFiles spec rootPath ds fls = [] := by
    unfold walkFiles
    rw [dirFileEntries_nil_of_hit spec rootPath "" fls hb hwff,
      walkDirs_nil_of_hit ds spec rootPath "" hb hwfd]
    rfl
  refine ⟨?_, hwalk, ?_, ?_⟩
  · exact should_include_path_eq_false_of_hit _ spec
      (builtinHit_pathJoin rootPath name hb hn)
  · intro secs hok rel lang c hmem
    unfold flattenContent at hok
    rw [hwalk] at hok
    split at hok
    · simp only [emitSections, Except.ok.injEq] at hok
      subst hok
      simp at hmem
    · rename_i nm hfr
      split at hok
      · exact absurd hok (by simp)
      · split at hok
        · exact absurd hok (by simp)
        · exact absurd hok (by simp)
        · rename_i c0 hrc
          split at hok
          · rename_i u hemit
            simp [emitSections] at hemit
          · rename_i l hemit
            simp only [emitSections, Except.ok.injEq] at hemit
            subst hemit
            simp only [Except.ok.injEq] at hok
            subst hok
            simp at hmem
  · unfold flattenStructureBody flattenStructureTree
    rw [walkTreeDirs_id_of_hit ds spec rootPath [] (some PyTreeM.nil) hb hwfd]
    rw [show fls.filter
        (fun f => should_include_path (pathJoin rootPath f.name) spec) = []
      from ?_]
    · simp [print_tree_nil]
    · rw [List.filter_eq_nil_iff]
      intro f hf
      rw [should_include_path_eq_false_of_hit _ spec
        (builtinHit_pathJoin rootPath f.name hb
          (okName_not_abs f.name (wfFiles_names fls hwff f hf)))]
      simp

/-- C10 witness: a repository checked out under a path containing `build`,
with one subdirectory and one python file, produces no file sections and an
empty tree. -/
theorem c10_root_builtin_hit_excludes_everything_witness :
    should_include_path (pathJoin "/tmp/build" "x.py") (fun _ => false) = false ∧
      walkFiles (fun _ => false) "/tmp/build"
        (FSDirs.cons "src" FSDirs.nil [] FSDirs.nil) [⟨"a.py", some "z"⟩] = [] ∧
      (∀ secs,
        flattenContent (fun _ => false) "/tmp/build"
            (FSDirs.cons "src" FSDirs.nil [] FSDirs.nil) [⟨"a.py", some "z"⟩] =
          Except.ok secs →
        ∀ rel lang c, MdSection.file rel lang c ∉ secs) ∧
      flattenStructureBody (fun _ => false) "/tmp/build"
        (FSDirs.cons "src" FSDirs.nil [] FSDirs.nil) [⟨"a.py", some "z"⟩] =
        some "" :=
  c10_root_builtin_hit_excludes_everything (fun _ => false) "/tmp/build" "x.py"
    (FSDirs.cons "src" FSDirs.nil [] FSDirs.nil) [⟨"a.py", some "z"⟩]
    (by decide) (by decide) (by decide) (by decide)
